import Mathlib

/-!
# Verification of `diskusage_mac.py`

Shallow embedding of the single-file program `diskusage_mac.py` (friendly disk
usage for macOS).  Pure helpers of the program become Lean functions; the
external collaborators (the `mount` subprocess, `os.path.exists`, `os.statvfs`,
`diskutil info -plist`) become explicit oracle parameters, so that the whole
pipeline `get_rows`/`main` is a pure function of the oracle environment and of
the mount-listing text.

Python floats are modelled by exact arithmetic (`Nat`/`Int`/`Rat`).  For the
quantities handled here (byte counts, each float is an integer divided by a
power of 1024) the Python float computations are exact as long as the integers
fit in 53 bits, so the exact model coincides with the code on every realistic
input.
-/

namespace Diskusage

/-! ## `human`: human-readable byte formatting (source lines 22-29)

`human` feeds `float(bytes_)` through repeated exact division by 1024; the
format `f"{b:.1f}"` prints the value rounded to one decimal digit, ties going
to the even digit (this is what Python's formatting does on the exact binary
value of the float).  We therefore carry the pair `(num, k)` representing the
exact value `num / 1024 ^ k`. -/

/-- Nearest integer to `num / den`, ties to the even integer (the rounding the
`.1f` float format performs, applied to the exact value). -/
def roundHalfEven (num den : Nat) : Nat :=
  let q := num / den
  let r := num % den
  if 2 * r < den then q
  else if den < 2 * r then q + 1
  else if q % 2 = 0 then q else q + 1

/-- Rendering of `f"{b:.1f} {u}"` where `b` is the exact value
`num / 1024 ^ k`. -/
def fmtOneDecimal (num k : Nat) (u : String) : String :=
  let t := roundHalfEven (10 * num) (1024 ^ k)
  toString (t / 10) ++ "." ++ toString (t % 10) ++ " " ++ u

/-- The unit tuple of `human` (source line 23). -/
def units : List String := ["B", "KiB", "MiB", "GiB", "TiB", "PiB"]

/-- The `for u in units` loop of `human`: the running float `b` is represented
exactly as `num / 1024 ^ k`.  The `[]` fallback mirrors the (unreachable)
`return f"{bytes_} B"` on source line 29. -/
def humanLoop (num : Nat) : List String → Nat → String
  | [], _ => toString num ++ " B"
  | u :: rest, k =>
    if num < 1024 ^ (k + 1) ∨ u = "PiB" then
      if u = "B" then toString (num / 1024 ^ k) ++ " B"
      else fmtOneDecimal num k u
    else humanLoop num rest (k + 1)

/-- `human(bytes_)` of the source, for a non-negative byte count. -/
def human (bytes_ : Nat) : String := humanLoop bytes_ units 0

/-- `human` on a possibly negative integer (the `used` field is computed by
integer subtraction in the source).  A negative value is `< 1024` at the first
iteration, so the source returns `f"{int(b)} B"`, i.e. the decimal rendering of
the integer itself. -/
def humanZ (z : Int) : String :=
  if z < 0 then toString z ++ " B" else human z.toNat

/-! Spec-side rendition of the formatting rule, written from the words of the
specification ("iteratively divide by 1024 across unit labels B, KiB, MiB,
GiB, TiB, PiB; values under 1024 in the current unit (or reaching the last
unit) are formatted — the B unit renders as an integer with no decimal, all
larger units render with exactly one decimal place"), to be compared with the
`human` definition taken from the source. -/

/-- Spec-side: index of the unit under which the value is rendered — the first
unit in which the value is below 1024, capped at the last unit `PiB`. -/
def specUnitIndex (n : Nat) : Nat :=
  if n < 1024 then 0
  else if n < 1024 ^ 2 then 1
  else if n < 1024 ^ 3 then 2
  else if n < 1024 ^ 4 then 3
  else if n < 1024 ^ 5 then 4
  else 5

/-- Spec-side: name of the `k`-th unit. -/
def unitName (k : Nat) : String :=
  match k with
  | 0 => "B"
  | 1 => "KiB"
  | 2 => "MiB"
  | 3 => "GiB"
  | 4 => "TiB"
  | _ => "PiB"

/-- Spec-side formatter: integer with no decimal in the B unit, exactly one
decimal place in every larger unit. -/
def human_spec (n : Nat) : String :=
  if specUnitIndex n = 0 then toString n ++ " B"
  else fmtOneDecimal n (specUnitIndex n) (unitName (specUnitIndex n))

/-! ## `LINE_RE`: mount-line parsing (source line 18)

`LINE_RE = re.compile(r'^(?P<dev>\S+)\s+on\s+(?P<mp>.+?)\s+\((?P<fstype>[^,]+)')`
used with `.match` (anchored at the start of the line).  We model the regex
engine's behaviour on a line (a `List Char`):

* `\S+` is greedy but followed by `\s+`, so `dev` is exactly the maximal
  leading run of non-whitespace characters, which must be followed by at least
  one whitespace character;
* the greedy `\s+` before the literal `on` only matches the maximal whitespace
  run (backtracking would place a whitespace character where `o` is required),
  so the maximal run must be followed by the literal `on`;
* after `on`, the greedy `\s+` tries its maximal run `w2` first and backtracks
  one character at a time, which yields the candidate start positions of `mp`
  (`regionList` below, in the engine's order);
* `(?P<mp>.+?)` is lazy: `mp` grows one character at a time; `.` matches every
  character except a newline;
* the `\s+\(` after `mp` only succeeds where a maximal whitespace run ends at
  a literal `(` (backtracking inside the run puts whitespace where `(` is
  required);
* `(?P<fstype>[^,]+)` is the maximal nonempty run of non-comma characters
  (a negated class, so it also matches a newline).

Python's `\s` on a `str` pattern also covers some further Unicode whitespace;
mount output is ASCII, and the model restricts to the ASCII whitespace
characters. -/

/-- The ASCII characters matched by the regex class `\s`. -/
def isSpaceCh (c : Char) : Bool :=
  c == ' ' || c == '\t' || c == '\n' || c == '\r' || c == '\x0b' || c == '\x0c'

/-- Attempt of `\s+\((?P<fstype>[^,]+)` at the current position: a (maximal)
nonempty whitespace run ending exactly at `(`, then a nonempty run of
non-comma characters. -/
def trySplit (xs : List Char) : Option (List Char) :=
  let ws := xs.takeWhile isSpaceCh
  let tl := xs.dropWhile isSpaceCh
  if ws.isEmpty then none
  else
    match tl with
    | [] => none
    | d :: after =>
      if d == '(' then
        let ft := after.takeWhile (fun c => !(c == ','))
        if ft.isEmpty then none else some ft
      else none

/-- The lazy `(?P<mp>.+?)\s+\((?P<fstype>[^,]+)` scan over one candidate
region: `mp` (accumulated reversed in `acc`) grows one character at a time; at
each whitespace position (once `mp` is nonempty) the engine first tries to
finish via `trySplit`; `.` cannot consume a newline, which aborts the region. -/
def scanMp (acc : List Char) : List Char → Option (List Char × List Char)
  | [] => none
  | c :: rest =>
    if acc.isEmpty then
      if c == '\n' then none else scanMp [c] rest
    else if isSpaceCh c then
      match trySplit (c :: rest) with
      | some ft => some (acc.reverse, ft)
      | none => if c == '\n' then none else scanMp (c :: acc) rest
    else if c == '\n' then none else scanMp (c :: acc) rest

/-- First region (in the engine's backtracking order) on which the lazy scan
succeeds. -/
def tryRegions : List (List Char) → Option (List Char × List Char)
  | [] => none
  | r :: rs =>
    match scanMp [] r with
    | some x => some x
    | none => tryRegions rs

/-- Candidate regions for `mp` after the greedy `\s+` following `on`: the
engine consumes `i` characters of the maximal whitespace run `w2`, for
`i = w2.length` down to `1`. -/
def regionList (w2 tail : List Char) : List (List Char) :=
  (List.range w2.length).map (fun j => w2.drop (w2.length - j) ++ tail)

/-- `LINE_RE.match(line)`: `some (dev, mp, fstype)` on a match, `none`
otherwise. -/
def lineRe (line : List Char) : Option (List Char × List Char × List Char) :=
  let dev := line.takeWhile (fun c => !isSpaceCh c)
  let r1 := line.dropWhile (fun c => !isSpaceCh c)
  if dev.isEmpty then none
  else
    let w1 := r1.takeWhile isSpaceCh
    let r2 := r1.dropWhile isSpaceCh
    if w1.isEmpty then none
    else
      match r2 with
      | 'o' :: 'n' :: r3 =>
        let w2 := r3.takeWhile isSpaceCh
        let tail := r3.dropWhile isSpaceCh
        if w2.isEmpty then none
        else (tryRegions (regionList w2 tail)).map (fun p => (dev, p.1, p.2))
      | _ => none

/-- Python `str.lower()` (modelled on the ASCII range, which covers filesystem
type names and mount output). -/
def toLowerStr (s : String) : String := String.mk (s.data.map Char.toLower)

/-- Lines 61-66 of the source: regex match plus
`fstype = (m.group("fstype") or "").lower()` (the group is nonempty whenever
the regex matches, so the `or ""` is inert). -/
def parseMountLine (line : List Char) : Option (String × String × String) :=
  (lineRe line).map (fun p => (p.1.asString, p.2.1.asString, toLowerStr p.2.2.asString))

/-! Well-formedness of the components of a grammar-shaped line
`<device> on <mountpoint> (<fstype>, ...)`, under which the regex recovers the
components exactly. -/

/-- A device token: nonempty, no whitespace. -/
def goodDev (dev : List Char) : Bool :=
  !dev.isEmpty && dev.all (fun c => !isSpaceCh c)

/-- Scanning condition on the tail of a mountpoint (everything after its first
character): no newline, and no whitespace character that is last or directly
followed by `(` — otherwise the lazy scan would end the mountpoint early (or
abort at a newline). -/
def okTail : List Char → Bool
  | [] => true
  | [c] => !(c == '\n') && !isSpaceCh c
  | c :: d :: rest =>
    !(c == '\n') && ((!isSpaceCh c || !(d == '(')) && okTail (d :: rest))

/-- A mountpoint: nonempty, not starting with whitespace, and `okTail` on the
rest. -/
def goodMp (mp : List Char) : Bool :=
  match mp with
  | [] => false
  | c :: cs => !isSpaceCh c && okTail cs

/-- An fstype token: nonempty, no comma. -/
def goodFt (ft : List Char) : Bool :=
  !ft.isEmpty && ft.all (fun c => !(c == ','))

/-- A grammar-shaped mount line built from its components. -/
def mkMountLine (dev mp ft rest : List Char) : List Char :=
  dev ++ ' ' :: 'o' :: 'n' :: ' ' :: (mp ++ ' ' :: '(' :: (ft ++ ',' :: rest))

/-! ## `statvfs_row` (source lines 41-48)

`os.statvfs` returns unsigned block counts; the subtraction
`s.f_blocks - s.f_bfree` is Python integer arithmetic, so `used` is an `Int`
in the model.  The float division for `pct` is modelled exactly in `ℚ`. -/

/-- The fields of `os.statvfs` the program reads (all unsigned). -/
structure VfsStat where
  f_frsize : Nat
  f_bsize : Nat
  f_blocks : Nat
  f_bfree : Nat
  f_bavail : Nat
deriving DecidableEq

/-- `statvfs_row(mp)` given the statistics the OS returned for `mp`:
`(size, used, avail, pct)`.  `bs = s.f_frsize or s.f_bsize` uses Python
truthiness (`0` is falsy). -/
def statvfs_row (s : VfsStat) : Nat × Int × Nat × ℚ :=
  let bs := if s.f_frsize ≠ 0 then s.f_frsize else s.f_bsize
  let size := s.f_blocks * bs
  let used : Int := ((s.f_blocks : Int) - (s.f_bfree : Int)) * (bs : Int)
  let avail := s.f_bavail * bs
  let pct : ℚ := if size ≠ 0 then (used : ℚ) / (size : ℚ) * 100 else 0
  (size, used, avail, pct)

/-! ## `volume_name` (source lines 32-38) -/

/-- Outcome of `diskutil info -plist <dev>` followed by `plistlib.loads`:
either any exception along the way (tool missing, non-zero exit, malformed
plist — all caught by the `except Exception`), or a parsed dictionary from
which only the `VolumeName` entry matters (`none` models an absent or `None`
value; `plistlib` cannot itself produce `None`, but absence is common). -/
inductive PlistResult where
  | fails : PlistResult
  | ok : Option String → PlistResult
deriving DecidableEq

/-- `volume_name(dev)`: the `VolumeName` field, with every failure and every
falsy value collapsed to `""` (`info.get("VolumeName") or ""`). -/
def volume_name (diskutil : String → PlistResult) (dev : String) : String :=
  match diskutil dev with
  | PlistResult.fails => ""
  | PlistResult.ok v => v.getD ""

/-! ## `get_rows` (source lines 51-92) -/

/-- One row of the report, the tuple
`(dev, name, mp, size, used, avail, pct)` appended on source line 89. -/
structure MountRow where
  dev : String
  name : String
  mp : String
  size : Nat
  used : Int
  avail : Nat
  pct : ℚ
deriving DecidableEq

/-- The external collaborators of `get_rows`, as oracles.  `statvfs` takes the
index of the call (`os.statvfs` is stateful in reality: an early call can fail
while a later one succeeds), `pathExists` models `os.path.exists`, `diskutil`
models the `diskutil info -plist` subprocess. -/
structure Env where
  pathExists : String → Bool
  statvfs : Nat → String → Option VfsStat
  diskutil : String → PlistResult

/-- Loop state of `get_rows`: the `seen_mps` set (as the list of elements in
insertion order), the accumulated `rows`, and the number of `os.statvfs` calls
made so far. -/
structure ScanState where
  seen : List String
  rows : List MountRow
  calls : Nat

/-- `LOCAL_FS = {"apfs", "hfs", "hfs+"}` (source line 19). -/
def LOCAL_FS : List String := ["apfs", "hfs", "hfs+"]

/-- `as` is a prefix of `bs` (Python `str.startswith`, on the character
lists). -/
def isPre : List Char → List Char → Bool
  | [], _ => true
  | _ :: _, [] => false
  | a :: as, b :: bs => a == b && isPre as bs

/-- Python `s.startswith(pre)`. -/
def startsWithStr (s pre : String) : Bool := isPre pre.data s.data

/-- The body of the `for line in mount_output.splitlines()` loop
(source lines 60-89): parse, filter, deduplicate, stat, label, append. -/
def processLine (env : Env) (st : ScanState) (line : List Char) : ScanState :=
  match parseMountLine line with
  | none => st
  | some (dev, mp, fstype) =>
    if fstype ∉ LOCAL_FS then st
    else if !startsWithStr mp "/" then st
    else if startsWithStr mp "/System/" then st
    else if startsWithStr mp "/Volumes/.time" then st
    else if !env.pathExists mp then st
    else if mp ∈ st.seen then st
    else
      match env.statvfs st.calls mp with
      | none => { st with seen := mp :: st.seen, calls := st.calls + 1 }
      | some s =>
        let r := statvfs_row s
        { seen := mp :: st.seen,
          rows := st.rows ++
            [⟨dev, volume_name env.diskutil dev, mp, r.1, r.2.1, r.2.2.1, r.2.2.2⟩],
          calls := st.calls + 1 }

/-- The un-sorted accumulated rows of `get_rows`. -/
def rowsOf (env : Env) (mountLines : List (List Char)) : List MountRow :=
  (mountLines.foldl (processLine env) ⟨[], [], 0⟩).rows

/-- Lexicographic (code-point) `≤` on character lists: Python's `≤` on
strings. -/
def listLe : List Char → List Char → Bool
  | [], _ => true
  | _ :: _, [] => false
  | a :: as, b :: bs =>
    if a.toNat < b.toNat then true
    else if b.toNat < a.toNat then false
    else listLe as bs

/-- The comparison behind `rows.sort(key=lambda r: r[2].lower())`: Python
sorts ascending by the lowered mount path in code-point order. -/
def rowLe (a b : MountRow) : Bool :=
  listLe (toLowerStr a.mp).data (toLowerStr b.mp).data

/-- Stable insertion of a later row into an already sorted earlier list: the
new row goes after every row that compares `≤` to it. -/
def insertRow (r : MountRow) : List MountRow → List MountRow
  | [] => [r]
  | x :: xs => if rowLe x r then x :: insertRow r xs else r :: x :: xs

/-- `rows.sort(key=lambda r: r[2].lower())` (source line 91): Python's sort is
stable and ascending by the key, which determines the result uniquely; it is
modelled by a stable insertion sort. -/
def sortRows (rows : List MountRow) : List MountRow :=
  rows.foldl (fun acc r => insertRow r acc) []

/-- `get_rows()` as a function of the oracles and of the lines of the mount
output (`splitlines` is modelled by passing the list of lines, none of which
contains a newline). -/
def get_rows (env : Env) (mountLines : List (List Char)) : List MountRow :=
  sortRows (rowsOf env mountLines)

/-! ## `main` (source lines 95-121): widths, rendering, exit code -/

/-- Python `f"{s:{w}}"` on a string: left-justify to width `w` with spaces,
never truncating. -/
def ljust (s : String) (w : Nat) : String :=
  s ++ String.mk (List.replicate (w - s.length) ' ')

/-- Python `f"{s:>{w}}"` on a string: right-justify to width `w` with spaces,
never truncating. -/
def rjust (s : String) (w : Nat) : String :=
  String.mk (List.replicate (w - s.length) ' ') ++ s

/-- Python `s[:w]` for `w ≥ 0`. -/
def pyTake (s : String) (w : Nat) : String := String.mk (s.data.take w)

/-- `dev_w` (source lines 97, 100): `min(max([len("Device")] + widths), 18)`. -/
def dev_w (rows : List MountRow) : Nat :=
  min (rows.foldl (fun a r => max a r.dev.length) "Device".length) 18

/-- `name_w` (source lines 98, 100): cap 24, header `"Volume name"`. -/
def name_w (rows : List MountRow) : Nat :=
  min (rows.foldl (fun a r => max a r.name.length) "Volume name".length) 24

/-- `mp_w` (source lines 99, 100): cap 40, header `"Mount"`. -/
def mp_w (rows : List MountRow) : Nat :=
  min (rows.foldl (fun a r => max a r.mp.length) "Mount".length) 40

/-- The header line (source lines 102-105). -/
def headerLine (dw nw mw : Nat) : String :=
  ljust "Device" dw ++ "  " ++ ljust "Volume name" nw ++ "  " ++
    ljust "Mount" mw ++ "  " ++ rjust "Total" 12 ++ "  " ++ rjust "Used" 12 ++
    "  " ++ rjust "Free" 12 ++ "  " ++ rjust "Use%" 6

/-- The separator line of dashes (source lines 106-109). -/
def sepLine (dw nw mw : Nat) : String :=
  ljust (String.mk (List.replicate dw '-')) dw ++ "  " ++
    ljust (String.mk (List.replicate nw '-')) nw ++ "  " ++
    ljust (String.mk (List.replicate mw '-')) mw ++ "  " ++
    rjust (String.mk (List.replicate 12 '-')) 12 ++ "  " ++
    rjust (String.mk (List.replicate 12 '-')) 12 ++ "  " ++
    rjust (String.mk (List.replicate 12 '-')) 12 ++ "  " ++
    rjust (String.mk (List.replicate 6 '-')) 6

/-- Nearest integer to the rational `q`, ties to even (the rounding of the
`.1f` float format on the exact value). -/
def roundHalfEvenZ (q : ℚ) : Int :=
  let n := Int.floor q
  let f := q - (n : ℚ)
  if f < 1 / 2 then n
  else if (1 : ℚ) / 2 < f then n + 1
  else if n % 2 = 0 then n else n + 1

/-- Python `f"{pct:6.1f}%"` on the exact value of `pct`.  (For a negative
value that rounds to `-0.0`, Python keeps the sign of the float zero; such a
value requires `f_bfree > f_blocks` and cannot come from a real `statvfs`
result, so the model renders it without the sign.) -/
def fmtPct (q : ℚ) : String :=
  let t := roundHalfEvenZ (10 * q)
  let s :=
    if t < 0 then
      "-" ++ toString ((-t).toNat / 10) ++ "." ++ toString ((-t).toNat % 10)
    else toString (t.toNat / 10) ++ "." ++ toString (t.toNat % 10)
  rjust s 6 ++ "%"

/-- One printed data row (source lines 113-117).  Note that `name` and `mp`
are sliced (`name[:name_w]`, `mp[:mp_w]`) but `dev` is not. -/
def renderRow (dw nw mw : Nat) (r : MountRow) : String :=
  ljust r.dev dw ++ "  " ++ ljust (pyTake r.name nw) nw ++ "  " ++
    ljust (pyTake r.mp mw) mw ++ "  " ++ rjust (human r.size) 12 ++ "  " ++
    rjust (humanZ r.used) 12 ++ "  " ++ rjust (human r.avail) 12 ++ "  " ++
    fmtPct r.pct

/-- Everything `main` prints, one list entry per output line
(source lines 111-120): header, separator, the data rows, and — when there are
no rows — the informational message. -/
def mainOutput (rows : List MountRow) : List String :=
  let dw := dev_w rows
  let nw := name_w rows
  let mw := mp_w rows
  [headerLine dw nw mw, sepLine dw nw mw] ++ rows.map (renderRow dw nw mw) ++
    (if rows.isEmpty then ["(no local APFS/HFS mounts found)"] else [])

/-- The whole run (`sys.exit(main())`, source lines 95-125): `mountResult` is
the outcome of the mount enumeration of lines 52-55 (`none`: both
`subprocess.check_output` attempts raise — the exception escapes `main` and
the interpreter terminates with the non-zero status 1; `some`: the captured
output's lines).  Returns (exit status, stdout lines). -/
def runMain (mountResult : Option (List (List Char))) (env : Env) :
    Nat × List String :=
  match mountResult with
  | none => (1, [])
  | some mountLines => (0, mainOutput (get_rows env mountLines))

/-! ## Concrete fixtures used to instantiate the theorems -/

/-- Fixture: a plausible `statvfs` result (4 KiB fragments, 1000 blocks, 500
free, 400 available), giving `size = 4096000`, `used = 2048000`,
`avail = 1638400`, `pct = 50`. -/
def statW : VfsStat := ⟨4096, 0, 1000, 500, 400⟩

/-- Fixture: every path exists, every `statvfs` call returns `statW`, every
`diskutil` call fails. -/
def envT : Env := ⟨fun _ => true, fun _ _ => some statW, fun _ => PlistResult.fails⟩

/-- Fixture: like `envT` but the first `statvfs` call of the run raises
`OSError` and every later one succeeds. -/
def envOnceFail : Env :=
  ⟨fun _ => true, fun k _ => if k = 0 then none else some statW,
   fun _ => PlistResult.fails⟩

/-- Fixture: an all-zero `statvfs` result (such as a pseudo-filesystem would
report): `size = used = avail = 0` and `pct = 0`. -/
def statZ : VfsStat := ⟨0, 0, 0, 0, 0⟩

/-- Fixture: every path exists, every `statvfs` call returns `statZ`, and
`diskutil` succeeds with volume name `"Macintosh HD"`. -/
def envZ : Env :=
  ⟨fun _ => true, fun _ _ => some statZ,
   fun _ => PlistResult.ok (some "Macintosh HD")⟩

/-- A row whose device identifier is 19 characters long (one more than the
18-character device column cap). -/
def rowLongDev : MountRow :=
  ⟨"disk0123456789abcde", "Macintosh HD", "/", 4096000, 2048000, 1638400, 50⟩

/-- The pct-free projection of a row (used to state concrete pipeline runs;
the `pct` field is exact rational arithmetic, which the kernel evaluator
cannot normalise, and the concrete scenarios do not depend on it). -/
def projRow (r : MountRow) : String × String × String × Nat × Int × Nat :=
  (r.dev, r.name, r.mp, r.size, r.used, r.avail)

/-- Spec-side renderer, written from the words of the claim: every cell of the
device, label and mount columns is truncated to its column's width (the source
truncates only `name` and `mp`). -/
def renderRow_claimed (dw nw mw : Nat) (r : MountRow) : String :=
  ljust (pyTake r.dev dw) dw ++ "  " ++ ljust (pyTake r.name nw) nw ++ "  " ++
    ljust (pyTake r.mp mw) mw ++ "  " ++ rjust (human r.size) 12 ++ "  " ++
    rjust (humanZ r.used) 12 ++ "  " ++ rjust (human r.avail) 12 ++ "  " ++
    fmtPct r.pct

end Diskusage

namespace Diskusage

/-- C1: the human-readable formatter divides through the units B…PiB, stopping
under 1024 or at PiB; the B unit renders as a plain integer, larger units with
exactly one decimal place; and the five enumerated example values render as
stated. -/
theorem human_matches_spec :
    (∀ n : Nat, human n = human_spec n) ∧
    human 0 = "0 B" ∧ human 1023 = "1023 B" ∧ human 1024 = "1.0 KiB" ∧
    human 1536 = "1.5 KiB" ∧ human 1073741824 = "1.0 GiB" := by
  have hB : ("B" : String) ≠ "PiB" := by decide
  have hK : ("KiB" : String) ≠ "PiB" := by decide
  have hM : ("MiB" : String) ≠ "PiB" := by decide
  have hG : ("GiB" : String) ≠ "PiB" := by decide
  have hT : ("TiB" : String) ≠ "PiB" := by decide
  refine ⟨?_, by decide, by decide, by decide, by decide, by decide⟩
  intro n
  by_cases h1 : n < 1024
  · simp [human, units, humanLoop, human_spec, specUnitIndex, h1, hB]
  · by_cases h2 : n < 1048576
    · simp [human, units, humanLoop, human_spec, specUnitIndex, unitName,
        h1, h2, hB, hK]
    · by_cases h3 : n < 1073741824
      · simp [human, units, humanLoop, human_spec, specUnitIndex, unitName,
          h1, h2, h3, hB, hK, hM]
      · by_cases h4 : n < 1099511627776
        · simp [human, units, humanLoop, human_spec, specUnitIndex, unitName,
            h1, h2, h3, h4, hB, hK, hM, hG]
        · by_cases h5 : n < 1125899906842624
          · simp [human, units, humanLoop, human_spec, specUnitIndex, unitName,
              h1, h2, h3, h4, h5, hB, hK, hM, hG, hT]
          · simp [human, units, humanLoop, human_spec, specUnitIndex, unitName,
              h1, h2, h3, h4, h5, hB, hK, hM, hG, hT]

/-! ### Helper lemmas about the rendering primitives -/

theorem length_mk (l : List Char) : (String.mk l).length = l.length := rfl

theorem length_ljust (s : String) (w : Nat) : (ljust s w).length = max w s.length := by
  simp only [ljust, String.length_append, length_mk, List.length_replicate]
  omega

theorem length_pyTake (s : String) (w : Nat) :
    (pyTake s w).length = min w s.length := by
  simp only [pyTake, length_mk, List.length_take]
  rfl

theorem foldl_max_eq (a : Nat) (l : List Nat) :
    l.foldl max a = max a (l.foldr max 0) := by
  induction l generalizing a with
  | nil => simp
  | cons x t ih =>
    simp only [List.foldl_cons, List.foldr_cons, ih (max a x)]
    omega

theorem foldl_max_len (a : Nat) (f : MountRow → Nat) (rows : List MountRow) :
    rows.foldl (fun acc r => max acc (f r)) a =
      max a ((rows.map f).foldr max 0) := by
  induction rows generalizing a with
  | nil => simp
  | cons x t ih =>
    simp only [List.foldl_cons, List.map_cons, List.foldr_cons, ih (max a (f x))]
    omega

/-! ### C3: output for an empty row list -/

/-- C3 counterexample: with no rows, the program does not print the
informational line alone — the table header and the dash separator are printed
first, so the claim "no table header or separator is emitted" fails on the
code. -/
theorem no_mounts_cex :
    mainOutput [] ≠ ["(no local APFS/HFS mounts found)"] := by decide

/-- C3 (amended): with no rows, the program prints the table header and the
dash separator (at the widths determined by the headers alone: 6, 11, 5) and
then the single informational line — the message is printed in addition to the
header and separator, not instead of them. -/
theorem no_mounts_message :
    mainOutput [] =
      [headerLine 6 11 5, sepLine 6 11 5, "(no local APFS/HFS mounts found)"] ∧
    (mainOutput []).length = 3 ∧
    headerLine 6 11 5 =
      "Device  Volume name  Mount         Total          Used          Free    Use%" :=
  ⟨by decide, by decide, by decide⟩

/-! ### C4: column widths and truncation -/

/-- C4 counterexample: the device cell is not truncated.  For a row whose
device identifier has 19 characters and the capped device width 18, the
rendered row differs from the claim's rendering (device truncated to the cap):
the actual device cell keeps all 19 characters. -/
theorem device_not_truncated_cex :
    renderRow 18 24 40 rowLongDev ≠ renderRow_claimed 18 24 40 rowLongDev := by
  intro h
  have h19 : (renderRow 18 24 40 rowLongDev).data.take 19 ≠
      (renderRow_claimed 18 24 40 rowLongDev).data.take 19 := by decide
  exact h19 (by rw [h])

/-- C4 (amended): each column's display width is the maximum of the header
width and the widest cell, capped at 18 (device), 24 (label), 40 (mount); the
label and mount cells are truncated to the column width, so they occupy
exactly the column width in the output; the device cell is padded to the
column width but never truncated — a device longer than the width overflows
(its cell occupies `max width length`). -/
theorem column_widths :
    (∀ rows : List MountRow,
        dev_w rows = min (max 6 ((rows.map (fun r => r.dev.length)).foldr max 0)) 18 ∧
        name_w rows = min (max 11 ((rows.map (fun r => r.name.length)).foldr max 0)) 24 ∧
        mp_w rows = min (max 5 ((rows.map (fun r => r.mp.length)).foldr max 0)) 40) ∧
    (∀ (nw : Nat) (s : String), (ljust (pyTake s nw) nw).length = nw) ∧
    (∀ (dw : Nat) (s : String), (ljust s dw).length = max dw s.length) ∧
    (∀ (dw nw mw : Nat) (r : MountRow),
        renderRow dw nw mw r =
          ljust r.dev dw ++ "  " ++ ljust (pyTake r.name nw) nw ++ "  " ++
            ljust (pyTake r.mp mw) mw ++ "  " ++ rjust (human r.size) 12 ++
            "  " ++ rjust (humanZ r.used) 12 ++ "  " ++
            rjust (human r.avail) 12 ++ "  " ++ fmtPct r.pct) := by
  refine ⟨?_, ?_, fun dw s => length_ljust s dw, fun _ _ _ _ => rfl⟩
  · intro rows
    refine ⟨?_, ?_, ?_⟩ <;>
      simp only [dev_w, name_w, mp_w, foldl_max_len] <;> rfl
  · intro nw s
    rw [length_ljust, length_pyTake]
    omega

/-! ### C5: `usedPercent` -/

/-- C5: the `pct` component of `statvfs_row` equals `used / size * 100` when
`size > 0` and is exactly `0` when `size = 0`; and (for statistics satisfying
the `statvfs` contract `f_bfree ≤ f_blocks`, without which `used` would be
negative) it lies in `[0, 100]` whenever `size > 0`. -/
theorem statvfs_row_pct (s : VfsStat) :
    ((statvfs_row s).1 = 0 → (statvfs_row s).2.2.2 = 0) ∧
    (0 < (statvfs_row s).1 →
      (statvfs_row s).2.2.2 =
        ((statvfs_row s).2.1 : ℚ) / ((statvfs_row s).1 : ℚ) * 100) ∧
    (s.f_bfree ≤ s.f_blocks → 0 < (statvfs_row s).1 →
      0 ≤ (statvfs_row s).2.2.2 ∧ (statvfs_row s).2.2.2 ≤ 100) := by
  obtain ⟨fr, bsz, bl, bf, ba⟩ := s
  simp only [statvfs_row]
  set bs := if fr ≠ 0 then fr else bsz with hbs
  refine ⟨fun h => by simp [h], fun h => by simp [Nat.pos_iff_ne_zero.mp h], ?_⟩
  intro hbf hpos
  have hne : bl * bs ≠ 0 := Nat.pos_iff_ne_zero.mp hpos
  simp only [if_neg (by exact fun hc => hne hc), ne_eq, hne, not_false_iff, if_true]
  have hposQ : (0 : ℚ) < ((bl * bs : Nat) : ℚ) := by
    exact_mod_cast Nat.pos_of_ne_zero hne
  have husedle : (((bl : Int) - (bf : Int)) * (bs : Int)) ≤ ((bl * bs : Nat) : Int) := by
    push_cast
    have : ((bl : Int) - (bf : Int)) ≤ (bl : Int) := by
      have : (0 : Int) ≤ (bf : Int) := Int.ofNat_nonneg bf
      omega
    exact mul_le_mul_of_nonneg_right this (Int.ofNat_nonneg bs)
  have husednn : (0 : Int) ≤ ((bl : Int) - (bf : Int)) * (bs : Int) := by
    have h1 : (0 : Int) ≤ (bl : Int) - (bf : Int) := by
      have := Int.ofNat_le.mpr hbf
      omega
    exact mul_nonneg h1 (Int.ofNat_nonneg bs)
  constructor
  · apply mul_nonneg _ (by norm_num : (0 : ℚ) ≤ 100)
    apply div_nonneg _ hposQ.le
    exact_mod_cast husednn
  · have hdivle : ((((bl : Int) - (bf : Int)) * (bs : Int) : Int) : ℚ) /
        ((bl * bs : Nat) : ℚ) ≤ 1 := by
      rw [div_le_one hposQ]
      exact_mod_cast husedle
    calc ((((bl : Int) - (bf : Int)) * (bs : Int) : Int) : ℚ) /
          ((bl * bs : Nat) : ℚ) * 100 ≤ 1 * 100 := by
          exact mul_le_mul_of_nonneg_right hdivle (by norm_num)
      _ = 100 := one_mul 100

/-- Witness for C5 at the concrete statistics `statW` (and, for the
`size = 0` case, at statistics with zero blocks). -/
theorem statvfs_row_pct_witness :
    (statvfs_row ⟨4096, 0, 0, 0, 0⟩).2.2.2 = 0 ∧
    (statvfs_row statW).2.2.2 =
      ((statvfs_row statW).2.1 : ℚ) / ((statvfs_row statW).1 : ℚ) * 100 ∧
    (0 ≤ (statvfs_row statW).2.2.2 ∧ (statvfs_row statW).2.2.2 ≤ 100) :=
  ⟨(statvfs_row_pct _).1 (by decide), (statvfs_row_pct _).2.1 (by decide),
   (statvfs_row_pct statW).2.2 (by decide) (by decide)⟩

/-! ### C8: exit codes -/

/-- C8: whenever the mount enumeration can be performed the run exits with
status 0 — whatever the oracle environment does, so in particular when every
`statvfs` query or label lookup fails, and when no rows at all survive — and
the run exits non-zero exactly when the mount enumeration itself is
impossible. -/
theorem exit_code_policy :
    (∀ (env : Env) (mountLines : List (List Char)),
        (runMain (some mountLines) env).1 = 0) ∧
    (∀ env : Env, (runMain none env).1 ≠ 0) :=
  ⟨fun _ _ => rfl, fun _ => Nat.one_ne_zero⟩

/-! ### C2: the line parser -/

theorem takeWhile_append_cons (p : Char → Bool) :
    ∀ (xs : List Char) (y : Char) (ys : List Char),
      (∀ c ∈ xs, p c = true) → p y = false →
      (xs ++ y :: ys).takeWhile p = xs ∧ (xs ++ y :: ys).dropWhile p = y :: ys := by
  intro xs
  induction xs with
  | nil =>
    intro y ys _ hy
    simp [List.takeWhile_cons, List.dropWhile_cons, hy]
  | cons a t ih =>
    intro y ys hall hy
    have ha : p a = true := hall a (List.mem_cons_self a t)
    have ht := ih y ys (fun c hc => hall c (List.mem_cons_of_mem a hc)) hy
    simp [List.takeWhile_cons, List.dropWhile_cons, ha, ht.1, ht.2]

theorem ne_newline_of_not_space {c : Char} (h : isSpaceCh c = false) :
    (c == '\n') = false := by
  by_cases hc : c = '\n'
  · subst hc
    exact absurd h (by decide)
  · simp [hc]

theorem okTail_tail {c : Char} {cs : List Char} (h : okTail (c :: cs) = true) :
    okTail cs = true := by
  cases cs with
  | nil => rfl
  | cons d tl =>
    simp only [okTail, Bool.and_eq_true] at h
    exact h.2.2

theorem okTail_ne_newline {c : Char} {cs : List Char}
    (h : okTail (c :: cs) = true) : (c == '\n') = false := by
  cases cs with
  | nil =>
    simp only [okTail, Bool.and_eq_true, Bool.not_eq_true'] at h
    exact h.1
  | cons d tl =>
    simp only [okTail, Bool.and_eq_true, Bool.not_eq_true'] at h
    exact h.1

theorem okTail_space_next {c d : Char} {tl : List Char}
    (h : okTail (c :: d :: tl) = true) (hc : isSpaceCh c = true) :
    (d == '(') = false := by
  simp only [okTail, Bool.and_eq_true, Bool.or_eq_true, Bool.not_eq_true'] at h
  rcases h.2.1 with h1 | h1
  · exact Bool.noConfusion (h1 ▸ hc)
  · exact h1

theorem dropWhile_not_paren (J : List Char) :
    ∀ (cs : List Char) (c : Char), isSpaceCh c = true → okTail (c :: cs) = true →
      ∃ d tl, ((c :: cs) ++ J).dropWhile isSpaceCh = d :: tl ∧
        (d == '(') = false ∧ isSpaceCh d = false := by
  intro cs
  induction cs with
  | nil =>
    intro c hc h
    simp only [okTail, Bool.and_eq_true, Bool.not_eq_true'] at h
    exact Bool.noConfusion (h.2 ▸ hc)
  | cons d tl ih =>
    intro c hc h
    have hdp : (d == '(') = false := okTail_space_next h hc
    have hok : okTail (d :: tl) = true := okTail_tail h
    cases hd : isSpaceCh d with
    | false =>
      refine ⟨d, tl ++ J, ?_, hdp, hd⟩
      simp [List.dropWhile_cons, hc, hd]
    | true =>
      obtain ⟨e, tl2, hdw, hep, hes⟩ := ih d hd hok
      refine ⟨e, tl2, ?_, hep, hes⟩
      simpa [List.dropWhile_cons, hc] using hdw

theorem trySplit_none_of_okTail (J : List Char) (cs : List Char) (c : Char)
    (hc : isSpaceCh c = true) (h : okTail (c :: cs) = true) :
    trySplit ((c :: cs) ++ J) = none := by
  obtain ⟨d, tl, hdw, hdp, _⟩ := dropWhile_not_paren J cs c hc h
  rw [List.cons_append] at hdw
  simp only [trySplit, List.takeWhile_cons, List.cons_append, hc, if_true, hdw]
  simp [hdp]

theorem trySplit_junction (ft rest : List Char) (hft : goodFt ft = true) :
    trySplit (' ' :: '(' :: (ft ++ ',' :: rest)) = some ft := by
  have hftall : ∀ c ∈ ft, (fun c => !(c == ',')) c = true := by
    simp only [goodFt, Bool.and_eq_true, List.all_eq_true] at hft
    exact fun c hc => hft.2 c hc
  have hftne : ft.isEmpty = false := by
    simp only [goodFt, Bool.and_eq_true, Bool.not_eq_true'] at hft
    exact hft.1
  have htw := takeWhile_append_cons (fun c => !(c == ',')) ft ',' rest
    hftall (by decide)
  have hsp : isSpaceCh ' ' = true := by decide
  have hpar : isSpaceCh '(' = false := by decide
  have h1 : List.takeWhile isSpaceCh (' ' :: '(' :: (ft ++ ',' :: rest)) =
      [' '] := by
    simp [List.takeWhile_cons, hsp, hpar]
  have h2 : List.dropWhile isSpaceCh (' ' :: '(' :: (ft ++ ',' :: rest)) =
      '(' :: (ft ++ ',' :: rest) := by
    simp [List.dropWhile_cons, hsp, hpar]
  simp only [trySplit, h1, h2, List.isEmpty_cons, Bool.false_eq_true, if_false,
    beq_self_eq_true, if_true, htw.1, hftne]

theorem scanMp_junction (ft rest : List Char) (hft : goodFt ft = true) :
    ∀ (mp2 acc : List Char), okTail mp2 = true → acc ≠ [] →
      scanMp acc (mp2 ++ ' ' :: '(' :: (ft ++ ',' :: rest)) =
        some (acc.reverse ++ mp2, ft) := by
  intro mp2
  induction mp2 with
  | nil =>
    intro acc _ hacc
    have hae : acc.isEmpty = false := by
      cases acc with
      | nil => exact absurd rfl hacc
      | cons a as => rfl
    rw [List.nil_append, List.append_nil]
    simp only [scanMp, hae, Bool.false_eq_true, if_false,
      show isSpaceCh ' ' = true from by decide, if_true,
      trySplit_junction ft rest hft]
  | cons c cs ih =>
    intro acc hok hacc
    have hcs : okTail cs = true := okTail_tail hok
    have hnl : (c == '\n') = false := okTail_ne_newline hok
    have hae : acc.isEmpty = false := by
      cases acc with
      | nil => exact absurd rfl hacc
      | cons a as => rfl
    have hrec := ih (c :: acc) hcs (List.cons_ne_nil c acc)
    have hshape : (c :: acc).reverse ++ cs = acc.reverse ++ c :: cs := by
      simp [List.reverse_cons, List.append_assoc]
    rw [List.cons_append]
    cases hc : isSpaceCh c with
    | true =>
      have hts := trySplit_none_of_okTail (' ' :: '(' :: (ft ++ ',' :: rest))
        cs c hc hok
      rw [List.cons_append] at hts
      simp only [scanMp, hae, Bool.false_eq_true, if_false, hc, if_true, hts,
        hnl, hrec, hshape]
    | false =>
      simp only [scanMp, hae, Bool.false_eq_true, if_false, hc, hnl, hrec,
        hshape]

theorem lineRe_mkMountLine (dev mp ft rest : List Char)
    (hdev : goodDev dev = true) (hmp : goodMp mp = true)
    (hft : goodFt ft = true) :
    lineRe (mkMountLine dev mp ft rest) = some (dev, mp, ft) := by
  cases mp with
  | nil => simp [goodMp] at hmp
  | cons c0 cs0 =>
    simp only [goodMp, Bool.and_eq_true, Bool.not_eq_true'] at hmp
    obtain ⟨hc0, hok⟩ := hmp
    simp only [goodDev, Bool.and_eq_true, List.all_eq_true,
      Bool.not_eq_true'] at hdev
    obtain ⟨hdevne, hdevall⟩ := hdev
    have hscan' : scanMp [c0] (cs0 ++ ' ' :: '(' :: (ft ++ ',' :: rest)) =
        some (c0 :: cs0, ft) := by
      simpa using scanMp_junction ft rest hft cs0 [c0] hok
        (List.cons_ne_nil c0 [])
    generalize hX : cs0 ++ ' ' :: '(' :: (ft ++ ',' :: rest) = X at hscan'
    have hline : mkMountLine dev (c0 :: cs0) ft rest =
        dev ++ ' ' :: 'o' :: 'n' :: ' ' :: c0 :: X := by
      simp only [mkMountLine, List.cons_append, hX]
    rw [hline]
    have hdtw := takeWhile_append_cons (fun c => !isSpaceCh c) dev ' '
      ('o' :: 'n' :: ' ' :: c0 :: X)
      (fun c hc => by simp [hdevall c hc]) (by decide)
    have hw1 : List.takeWhile isSpaceCh (' ' :: 'o' :: 'n' :: ' ' :: c0 :: X) =
        [' '] := by
      simp [List.takeWhile_cons, show isSpaceCh ' ' = true from by decide,
        show isSpaceCh 'o' = false from by decide]
    have hd1 : List.dropWhile isSpaceCh (' ' :: 'o' :: 'n' :: ' ' :: c0 :: X) =
        'o' :: 'n' :: ' ' :: c0 :: X := by
      simp [List.dropWhile_cons, show isSpaceCh ' ' = true from by decide,
        show isSpaceCh 'o' = false from by decide]
    have hw2 : List.takeWhile isSpaceCh (' ' :: c0 :: X) = [' '] := by
      simp [List.takeWhile_cons, show isSpaceCh ' ' = true from by decide, hc0]
    have hd2 : List.dropWhile isSpaceCh (' ' :: c0 :: X) = c0 :: X := by
      simp [List.dropWhile_cons, show isSpaceCh ' ' = true from by decide, hc0]
    have hreg : regionList [' '] (c0 :: X) = [c0 :: X] := by
      simp [regionList, List.range_succ]
    have hsm : scanMp ([] : List Char) (c0 :: X) = some (c0 :: cs0, ft) := by
      simp only [scanMp, List.isEmpty_nil, if_true,
        ne_newline_of_not_space hc0, Bool.false_eq_true, if_false, hscan']
    simp only [lineRe, hdtw.1, hdtw.2, hdevne, Bool.false_eq_true, if_false,
      hw1, hd1, List.isEmpty_cons, hw2, hd2, hreg, tryRegions, hsm]
    simp

/-- C2: a line of the grammar shape
`<device> on <mountpoint> (<fstype>, ...)` — with a well-formed device token
(nonempty, no whitespace), mountpoint (nonempty, spaces allowed, but no
newline, no whitespace directly before a `(` and no leading or trailing
whitespace) and fstype token (nonempty, no comma) — is parsed into exactly
these components, with the fstype lower-cased; and a line the regex does not
match is silently skipped: the scan loop leaves its state unchanged. -/
theorem mount_line_parsing :
    (∀ dev mp ft rest : List Char,
        goodDev dev = true → goodMp mp = true → goodFt ft = true →
        parseMountLine (mkMountLine dev mp ft rest) =
          some (dev.asString, mp.asString, toLowerStr ft.asString)) ∧
    (∀ (line : List Char) (env : Env) (st : ScanState),
        parseMountLine line = none → processLine env st line = st) := by
  constructor
  · intro dev mp ft rest hd hm hf
    simp [parseMountLine, lineRe_mkMountLine dev mp ft rest hd hm hf]
  · intro line env st h
    simp only [processLine, h]

/-- Witness for C2: the grammar theorem applied to the line
`"/dev/disk1s1 on /Volumes/My Data (APFS, local)"` (a mountpoint containing a
space, an upper-case fstype), and the skip theorem applied to the non-matching
line `"header line"`. -/
theorem mount_line_parsing_witness :
    parseMountLine (mkMountLine "/dev/disk1s1".toList "/Volumes/My Data".toList
        "APFS".toList " local)".toList) =
      some ("/dev/disk1s1".toList.asString, "/Volumes/My Data".toList.asString,
        toLowerStr "APFS".toList.asString) ∧
    processLine envT ⟨[], [], 0⟩ "header line".toList = ⟨[], [], 0⟩ :=
  ⟨mount_line_parsing.1 _ _ _ _ (by decide) (by decide) (by decide),
   mount_line_parsing.2 _ envT _ (by decide)⟩

/-! ### Helper lemmas about the stable sort -/

theorem listLe_total : ∀ a b : List Char, listLe a b = true ∨ listLe b a = true := by
  intro a
  induction a with
  | nil => intro b; left; rfl
  | cons x xs ih =>
    intro b
    cases b with
    | nil => right; rfl
    | cons y ys =>
      by_cases h1 : x.toNat < y.toNat
      · left; simp [listLe, h1]
      · by_cases h2 : y.toNat < x.toNat
        · right; simp [listLe, h2]
        · rcases ih ys with h | h
          · left; simp [listLe, h1, h2, h]
          · right; simp [listLe, h1, h2, h]

theorem listLe_trans : ∀ a b c : List Char,
    listLe a b = true → listLe b c = true → listLe a c = true := by
  intro a
  induction a with
  | nil => intro b c _ _; rfl
  | cons x xs ih =>
    intro b c hab hbc
    cases b with
    | nil => simp [listLe] at hab
    | cons y ys =>
      cases c with
      | nil => simp [listLe] at hbc
      | cons z zs =>
        simp only [listLe] at hab hbc ⊢
        by_cases hxy : x.toNat < y.toNat
        · by_cases hyz : y.toNat < z.toNat
          · simp [show x.toNat < z.toNat by omega]
          · by_cases hzy : z.toNat < y.toNat
            · simp [hyz, hzy] at hbc
            · simp [show x.toNat < z.toNat by omega]
        · by_cases hyx : y.toNat < x.toNat
          · simp [hxy, hyx] at hab
          · by_cases hyz : y.toNat < z.toNat
            · simp [show x.toNat < z.toNat by omega]
            · by_cases hzy : z.toNat < y.toNat
              · simp [hyz, hzy] at hbc
              · simp only [hxy, hyz, if_false, hyx, hzy] at hab hbc
                simp only [show ¬(x.toNat < z.toNat) by omega,
                  show ¬(z.toNat < x.toNat) by omega, if_false]
                exact ih ys zs hab hbc

theorem rowLe_total (a b : MountRow) : rowLe a b = true ∨ rowLe b a = true :=
  listLe_total _ _

theorem rowLe_trans {a b c : MountRow} (h1 : rowLe a b = true)
    (h2 : rowLe b c = true) : rowLe a c = true :=
  listLe_trans _ _ _ h1 h2

theorem insertRow_perm (r : MountRow) :
    ∀ l : List MountRow, (insertRow r l).Perm (r :: l) := by
  intro l
  induction l with
  | nil => exact List.Perm.refl _
  | cons x xs ih =>
    by_cases h : rowLe x r = true
    · simp only [insertRow, h, if_true]
      exact (ih.cons x).trans (List.Perm.swap r x xs)
    · simp only [insertRow, h, if_false]
      exact List.Perm.refl _

theorem sortRows_perm_aux :
    ∀ (rows acc : List MountRow),
      (rows.foldl (fun a r => insertRow r a) acc).Perm (acc ++ rows) := by
  intro rows
  induction rows with
  | nil => intro acc; simp
  | cons x xs ih =>
    intro acc
    simp only [List.foldl_cons]
    have h1 := ih (insertRow x acc)
    have h2 : (insertRow x acc ++ xs).Perm ((x :: acc) ++ xs) :=
      (insertRow_perm x acc).append_right xs
    have h3 : ((x :: acc) ++ xs).Perm (acc ++ x :: xs) := by
      simp only [List.cons_append]
      exact List.perm_middle.symm
    exact (h1.trans h2).trans h3

theorem sortRows_perm (rows : List MountRow) : (sortRows rows).Perm rows := by
  simpa using sortRows_perm_aux rows []

theorem insertRow_sorted (r : MountRow) :
    ∀ l : List MountRow, l.Pairwise (fun a b => rowLe a b = true) →
      (insertRow r l).Pairwise (fun a b => rowLe a b = true) := by
  intro l
  induction l with
  | nil => intro _; simp [insertRow]
  | cons x xs ih =>
    intro hp
    rcases List.pairwise_cons.mp hp with ⟨hx, hxs⟩
    by_cases hc : rowLe x r = true
    · simp only [insertRow, hc, if_true]
      refine List.pairwise_cons.mpr ⟨?_, ih hxs⟩
      intro y hy
      rcases List.mem_cons.mp ((insertRow_perm r xs).mem_iff.mp hy) with h | h
      · subst h; exact hc
      · exact hx y h
    · simp only [insertRow, hc, if_false]
      have hrx : rowLe r x = true := by
        rcases rowLe_total x r with h | h
        · exact absurd h hc
        · exact h
      refine List.pairwise_cons.mpr ⟨?_, hp⟩
      intro y hy
      rcases List.mem_cons.mp hy with rfl | hy
      · exact hrx
      · exact rowLe_trans hrx (hx y hy)

theorem sortRows_sorted_aux :
    ∀ (rows acc : List MountRow),
      acc.Pairwise (fun a b => rowLe a b = true) →
      (rows.foldl (fun a r => insertRow r a) acc).Pairwise
        (fun a b => rowLe a b = true) := by
  intro rows
  induction rows with
  | nil => intro acc h; exact h
  | cons x xs ih =>
    intro acc h
    exact ih (insertRow x acc) (insertRow_sorted x acc h)

theorem sortRows_sorted (rows : List MountRow) :
    (sortRows rows).Pairwise (fun a b => rowLe a b = true) :=
  sortRows_sorted_aux rows [] (List.Pairwise.nil)

/-! ### Helper lemmas about the scan loop state -/

theorem processLine_inv (env : Env) (st : ScanState) (line : List Char)
    (h1 : ∀ r ∈ st.rows, r.mp ∈ st.seen)
    (h2 : (st.rows.map (fun r => r.mp)).Nodup) :
    (∀ r ∈ (processLine env st line).rows,
        r.mp ∈ (processLine env st line).seen) ∧
    ((processLine env st line).rows.map (fun r => r.mp)).Nodup := by
  cases hp : parseMountLine line with
  | none => simp only [processLine, hp]; exact ⟨h1, h2⟩
  | some t =>
    obtain ⟨dev, mp, fstype⟩ := t
    simp only [processLine, hp]
    split_ifs with hf hs1 hs2 hs3 hpe hseen
    all_goals try exact ⟨h1, h2⟩
    cases hsv : env.statvfs st.calls mp with
    | none =>
      refine ⟨fun r hr => ?_, h2⟩
      exact List.mem_cons_of_mem _ (h1 r hr)
    | some s =>
      constructor
      · intro r hr
        simp only [List.mem_append, List.mem_singleton] at hr
        rcases hr with hr | hr
        · exact List.mem_cons_of_mem _ (h1 r hr)
        · subst hr; exact List.mem_cons_self _ _
      · simp only [List.map_append, List.map_cons, List.map_nil]
        rw [List.nodup_append]
        refine ⟨h2, List.nodup_singleton _, ?_⟩
        intro a ha hb
        simp only [List.mem_singleton] at hb
        subst hb
        simp only [List.mem_map] at ha
        obtain ⟨r, hr, hrmp⟩ := ha
        exact hseen (hrmp ▸ h1 r hr)

theorem foldl_processLine_inv (env : Env) :
    ∀ (lines : List (List Char)) (st : ScanState),
      (∀ r ∈ st.rows, r.mp ∈ st.seen) →
      (st.rows.map (fun r => r.mp)).Nodup →
      (∀ r ∈ (lines.foldl (processLine env) st).rows,
          r.mp ∈ (lines.foldl (processLine env) st).seen) ∧
      ((lines.foldl (processLine env) st).rows.map (fun r => r.mp)).Nodup := by
  intro lines
  induction lines with
  | nil => intro st h1 h2; exact ⟨h1, h2⟩
  | cons l ls ih =>
    intro st h1 h2
    have h := processLine_inv env st l h1 h2
    exact ih _ h.1 h.2

/-! ### C6: mount-path uniqueness -/

/-- C6: in every report the mount paths of the rows are pairwise distinct
(deduplication by `seen_mps`); and on a concrete listing with two raw entries
sharing the mount path `/X`, only the first entry (device `devA`) is
retained. -/
theorem mountPath_unique :
    (∀ (env : Env) (mountLines : List (List Char)),
        ((get_rows env mountLines).map (fun r => r.mp)).Nodup) ∧
    (get_rows envT
        ["devA on /X (apfs, local)".toList,
         "devB on /X (apfs, local)".toList]).map projRow =
      [("devA", "", "/X", 4096000, 2048000, 1638400)] := by
  constructor
  · intro env lines
    have h := foldl_processLine_inv env lines ⟨[], [], 0⟩
      (by intro r hr; cases hr) List.Pairwise.nil
    have hperm : ((get_rows env lines).map (fun r => r.mp)).Perm
        ((rowsOf env lines).map (fun r => r.mp)) :=
      (sortRows_perm (rowsOf env lines)).map _
    exact hperm.nodup_iff.mpr h.2
  · decide

/-! ### C7: report order -/

/-- C7: the rows of every report are sorted ascending by the lower-cased mount
path in code-point order (`rowLe`, the case-insensitive comparison of the
sort); and the end-to-end scenario — an apfs mount at `/`, an hfs mount at
`/Volumes/Data`, an excluded entry under `/System/Volumes/VM` — yields exactly
two rows, `/` before `/Volumes/Data`. -/
theorem report_sorted :
    (∀ (env : Env) (mountLines : List (List Char)),
        (get_rows env mountLines).Pairwise (fun a b => rowLe a b = true)) ∧
    (get_rows envT
        ["/dev/disk2s1 on /Volumes/Data (hfs, local)".toList,
         "/dev/disk1s1 on / (apfs, local, journaled)".toList,
         "/dev/disk3s1 on /System/Volumes/VM (apfs, local)".toList]).map
        projRow =
      [("/dev/disk1s1", "", "/", 4096000, 2048000, 1638400),
       ("/dev/disk2s1", "", "/Volumes/Data", 4096000, 2048000, 1638400)] :=
  ⟨fun _ _ => sortRows_sorted _, by decide⟩

/-! ### C9: label-resolution failures -/

theorem processLine_diskutil (env : Env) (v : String → PlistResult)
    (st : ScanState) (line : List Char) :
    processLine { env with diskutil := v }
        ⟨st.seen,
         st.rows.map (fun r => { r with name := volume_name v r.dev }),
         st.calls⟩ line =
      ⟨(processLine env st line).seen,
       (processLine env st line).rows.map
         (fun r => { r with name := volume_name v r.dev }),
       (processLine env st line).calls⟩ := by
  cases hp : parseMountLine line with
  | none => simp only [processLine, hp]
  | some t =>
    obtain ⟨dev, mp, fstype⟩ := t
    simp only [processLine, hp]
    split_ifs
    all_goals try rfl
    cases hsv : env.statvfs st.calls mp with
    | none => rfl
    | some s => simp [List.map_append]

theorem rowsOf_diskutil (env : Env) (v : String → PlistResult) :
    ∀ (lines : List (List Char)) (st : ScanState),
      lines.foldl (processLine { env with diskutil := v })
          ⟨st.seen,
           st.rows.map (fun r => { r with name := volume_name v r.dev }),
           st.calls⟩ =
        ⟨(lines.foldl (processLine env) st).seen,
         (lines.foldl (processLine env) st).rows.map
           (fun r => { r with name := volume_name v r.dev }),
         (lines.foldl (processLine env) st).calls⟩ := by
  intro lines
  induction lines with
  | nil => intro st; rfl
  | cons l ls ih =>
    intro st
    simp only [List.foldl_cons]
    rw [processLine_diskutil]
    exact ih (processLine env st l)

theorem get_rows_diskutil (env : Env) (v : String → PlistResult)
    (lines : List (List Char)) (r : MountRow) (hr : r ∈ get_rows env lines) :
    { r with name := volume_name v r.dev } ∈
      get_rows { env with diskutil := v } lines := by
  have h1 : r ∈ rowsOf env lines :=
    (sortRows_perm (rowsOf env lines)).mem_iff.mp hr
  have h2 : rowsOf { env with diskutil := v } lines =
      (rowsOf env lines).map (fun r => { r with name := volume_name v r.dev }) := by
    have hfold := congrArg ScanState.rows (rowsOf_diskutil env v lines ⟨[], [], 0⟩)
    simpa [rowsOf] using hfold
  have h3 : { r with name := volume_name v r.dev } ∈
      rowsOf { env with diskutil := v } lines := by
    rw [h2]
    exact List.mem_map_of_mem _ h1
  exact (sortRows_perm (rowsOf { env with diskutil := v } lines)).mem_iff.mpr h3

/-- C9: every failure mode of the volume-label lookup — an exception along
the way (tool missing, non-zero exit, malformed plist output: `fails`) as well
as an absent or `None` `VolumeName` field (`ok none`) — yields the empty
string as the label; and no such failure propagates: whichever row a run
produces, the same run under any lookup oracle that fails everywhere (in
either mode, per device) still produces the corresponding row, with an empty
label. -/
theorem label_failure_graceful :
    (∀ (diskutil : String → PlistResult) (dev : String),
        diskutil dev = PlistResult.fails ∨ diskutil dev = PlistResult.ok none →
        volume_name diskutil dev = "") ∧
    (∀ (v : String → PlistResult) (env : Env) (mountLines : List (List Char))
        (r : MountRow),
        (∀ dev, v dev = PlistResult.fails ∨ v dev = PlistResult.ok none) →
        r ∈ get_rows env mountLines →
        { r with name := "" } ∈
          get_rows { env with diskutil := v } mountLines) := by
  have h1 : ∀ (diskutil : String → PlistResult) (dev : String),
      diskutil dev = PlistResult.fails ∨ diskutil dev = PlistResult.ok none →
      volume_name diskutil dev = "" := by
    intro d dev h
    rcases h with h | h <;> simp [volume_name, h]
  refine ⟨h1, ?_⟩
  intro v env lines r hall hr
  have h := get_rows_diskutil env v lines r hr
  rwa [h1 v r.dev (hall r.dev)] at h

/-- Witness for C9: a lookup whose `VolumeName` field is absent gives the
empty label, and the row that a labelled run (`envZ`, label `"Macintosh HD"`)
produces is kept, with an empty label, under an oracle that answers the run's
device with an absent field and every other device with an exception. -/
theorem label_failure_graceful_witness :
    volume_name (fun _ => PlistResult.ok none) "/dev/disk1s1" = "" ∧
    { (⟨"/dev/disk1s1", "Macintosh HD", "/", 0, 0, 0, 0⟩ : MountRow) with
        name := "" } ∈
      get_rows { envZ with diskutil := fun d =>
          if d = "/dev/disk1s1" then PlistResult.ok none
          else PlistResult.fails }
        ["/dev/disk1s1 on / (apfs, local)".toList] :=
  ⟨label_failure_graceful.1 _ _ (Or.inr rfl),
   label_failure_graceful.2 _ envZ _ _
     (fun dev => by by_cases h : dev = "/dev/disk1s1" <;> simp [h])
     (by decide)⟩

/-! ### C10: deduplication happens before the statistics query -/

/-- C10: the mount path enters `seen_mps` before `os.statvfs` is attempted.
(1) A parsed line whose mount path is already in `seen_mps` leaves the state
unchanged, whatever the statistics oracle would answer; (2) an entry that
passes every filter but whose statistics query fails still records its mount
path in `seen_mps` (and adds no row); (3) hence on a listing with two entries
for `/X` where only the first statistics call fails, the report has no row for
`/X` at all — the duplicate does not take its place. -/
theorem seen_before_statvfs :
    (∀ (env : Env) (st : ScanState) (line : List Char) (dev mp fstype : String),
        parseMountLine line = some (dev, mp, fstype) → mp ∈ st.seen →
        processLine env st line = st) ∧
    (∀ (env : Env) (st : ScanState) (line : List Char) (dev mp fstype : String),
        parseMountLine line = some (dev, mp, fstype) →
        fstype ∈ LOCAL_FS → startsWithStr mp "/" = true →
        startsWithStr mp "/System/" = false →
        startsWithStr mp "/Volumes/.time" = false →
        env.pathExists mp = true → mp ∉ st.seen →
        env.statvfs st.calls mp = none →
        processLine env st line =
          { st with seen := mp :: st.seen, calls := st.calls + 1 }) ∧
    get_rows envOnceFail
        ["devA on /X (apfs, local)".toList,
         "devB on /X (apfs, local)".toList] = [] := by
  refine ⟨?_, ?_, by decide⟩
  · intro env st line dev mp fstype hp hmem
    simp only [processLine, hp]
    split_ifs
    all_goals rfl
  · intro env st line dev mp fstype hp hf h1 h2 h3 hpe hns hsv
    simp [processLine, hp, hf, h1, h2, h3, hpe, hns, hsv]

/-- Witness for C10: a duplicate of an already seen mount path is dropped
without consulting the oracles, and a first entry whose statistics call fails
marks the path as seen while producing no row. -/
theorem seen_before_statvfs_witness :
    processLine envT ⟨["/X"], [], 1⟩ "devB on /X (apfs, local)".toList =
      ⟨["/X"], [], 1⟩ ∧
    processLine envOnceFail ⟨[], [], 0⟩ "devA on /X (apfs, local)".toList =
      ⟨["/X"], [], 1⟩ :=
  ⟨seen_before_statvfs.1 envT ⟨["/X"], [], 1⟩ _ "devB" "/X" "apfs" (by decide)
      (by decide),
   seen_before_statvfs.2.1 envOnceFail ⟨[], [], 0⟩ _ "devA" "/X" "apfs"
      (by decide) (by decide) (by decide) (by decide) (by decide) (by decide)
      (by decide) (by decide)⟩

end Diskusage
